import Mathlib

/-!
Verification of the swappProject command-execution core against its
natural-language specification.

The definitions below are shallow embeddings of the Python source:
  - Swapp/swappLast/cisco_manager.py   (range compressor, bulk operations,
    send_command output cleaning)
  - Swapp/swappLast/cache_manager.py   (ThreadSafeCache: TTL + LRU cache)
  - Swapp/swappLast/cisco_parsers.py   (parse_basic_interfaces)

External effects are made explicit:
  - wall-clock time (time.time(), a float in the source) is passed in as
    an explicit integer argument: every property proved here involves only
    ordering comparisons between times and ttls, and integer times keep
    every definition kernel-computable;
  - pickle / zlib serialization and the SSH channel are passed in as
    function arguments returning Option, where none models a raised
    exception;
  - Python dicts (insertion ordered) are modeled as association lists,
    OrderedDict LRU order included (front = oldest, back = newest).
-/

namespace Swapp

/-! ## Range compressor: CiscoManager._create_port_ranges (cisco_manager.py 528-559) -/

/-- Rendering of one closed range, mirroring the f-strings in
`_create_port_ranges`: a single port prints as `gi<slot>/<start>`, a wider
range as `gi<slot>/<start>-<end>`. -/
def renderRange (slotPref : String) (s e : Int) : String :=
  if s = e then "gi" ++ slotPref ++ "/" ++ toString s
  else "gi" ++ slotPref ++ "/" ++ toString s ++ "-" ++ toString e

/-- The loop of `_create_port_ranges`, carrying the optional current range
(current_range_start, current_range_end).  A port equal to current end + 1
extends the range; otherwise the range is closed and a new one starts.  The
final range is flushed after the loop. -/
def createPortRangesGo (slotPref : String) : List Int → Option (Int × Int) → List String
  | [], none => []
  | [], some (s, e) => [renderRange slotPref s e]
  | p :: rest, none => createPortRangesGo slotPref rest (some (p, p))
  | p :: rest, some (s, e) =>
      if p = e + 1 then createPortRangesGo slotPref rest (some (s, p))
      else renderRange slotPref s e :: createPortRangesGo slotPref rest (some (p, p))

/-- `CiscoManager._create_port_ranges(slot_prefix, ports)`. -/
def createPortRanges (slotPref : String) (ports : List Int) : List String :=
  createPortRangesGo slotPref ports none

/-- The same loop producing the numeric (start, end) pairs instead of their
rendered strings; used to state coverage and maximality of the ranges. -/
def portRangePairs : List Int → Option (Int × Int) → List (Int × Int)
  | [], none => []
  | [], some (s, e) => [(s, e)]
  | p :: rest, none => portRangePairs rest (some (p, p))
  | p :: rest, some (s, e) =>
      if p = e + 1 then portRangePairs rest (some (s, p))
      else (s, e) :: portRangePairs rest (some (p, p))

/-- All ports covered by one (start, end) pair, in ascending order. -/
def expandRange (s e : Int) : List Int :=
  (List.range (e + 1 - s).toNat).map (fun i => s + Int.ofNat i)

/-- Expansion of a pair. -/
def expandPair (r : Int × Int) : List Int := expandRange r.1 r.2

theorem createPortRangesGo_eq_map (slotPref : String) :
    ∀ (l : List Int) (cur : Option (Int × Int)),
      createPortRangesGo slotPref l cur =
        (portRangePairs l cur).map (fun r => renderRange slotPref r.1 r.2) := by
  intro l
  induction l with
  | nil => intro cur; cases cur with
    | none => rfl
    | some r => cases r; rfl
  | cons p rest ih =>
    intro cur
    cases cur with
    | none => simpa [createPortRangesGo, portRangePairs] using ih (some (p, p))
    | some r =>
      cases r with
      | mk s e =>
        by_cases hpe : p = e + 1
        · simp only [createPortRangesGo, portRangePairs, if_pos hpe]
          exact ih _
        · simp [createPortRangesGo, portRangePairs, hpe, ih (some (p, p))]

theorem expandRange_self (p : Int) : expandRange p p = [p] := by
  have h1 : (p + 1 - p).toNat = 1 := by omega
  simp [expandRange, h1, List.range_succ]

theorem expandRange_snoc (s e : Int) (h : s ≤ e + 1) :
    expandRange s (e + 1) = expandRange s e ++ [e + 1] := by
  have h1 : (e + 1 + 1 - s).toNat = (e + 1 - s).toNat + 1 := by omega
  have h2 : s + Int.ofNat ((e + 1 - s).toNat) = e + 1 := by
    simp only [Int.ofNat_eq_coe]
    omega
  show (List.range (e + 1 + 1 - s).toNat).map (fun i => s + Int.ofNat i) =
      (List.range (e + 1 - s).toNat).map (fun i => s + Int.ofNat i) ++ [e + 1]
  rw [h1, List.range_succ, List.map_append, List.map_cons, List.map_nil, h2]

theorem portRangePairs_expand :
    ∀ (l : List Int) (s e : Int), s ≤ e → (∀ x ∈ l, e < x) →
      List.Sorted (· < ·) l →
      (portRangePairs l (some (s, e))).flatMap expandPair = expandRange s e ++ l := by
  intro l
  induction l with
  | nil =>
    intro s e _ _ _
    simp [portRangePairs, expandPair]
  | cons p rest ih =>
    intro s e hse hlt hsort
    have hep : e < p := hlt p (List.mem_cons_self p rest)
    have hrest : ∀ x ∈ rest, p < x := by
      intro x hx
      exact (List.sorted_cons.mp hsort).1 x hx
    have hsort' : List.Sorted (· < ·) rest := (List.sorted_cons.mp hsort).2
    by_cases hpe : p = e + 1
    · have hsp : s ≤ p := by omega
      have := ih s p hsp (by simpa [hpe] using hrest) hsort'
      rw [portRangePairs, if_pos hpe, this, hpe, expandRange_snoc s e (by omega)]
      simp
    · have hpp : p ≤ p := le_refl p
      have := ih p p hpp hrest hsort'
      rw [portRangePairs, if_neg hpe]
      simp only [List.flatMap_cons, this]
      simp [expandPair, expandRange_self]

theorem portRangePairs_maximal :
    ∀ (l : List Int) (s e : Int), s ≤ e → (∀ x ∈ l, e < x) →
      List.Sorted (· < ·) l →
      (∀ r ∈ portRangePairs l (some (s, e)), r.1 ≤ r.2) ∧
      List.Chain' (fun a b : Int × Int => a.2 + 1 < b.1) (portRangePairs l (some (s, e))) ∧
      (portRangePairs l (some (s, e))).head?.map Prod.fst = some s := by
  intro l
  induction l with
  | nil =>
    intro s e hse _ _
    refine ⟨?_, ?_, ?_⟩
    · intro r hr
      simp [portRangePairs] at hr
      simp [hr, hse]
    · simp [portRangePairs]
    · simp [portRangePairs]
  | cons p rest ih =>
    intro s e hse hlt hsort
    have hep : e < p := hlt p (List.mem_cons_self p rest)
    have hrest : ∀ x ∈ rest, p < x := by
      intro x hx
      exact (List.sorted_cons.mp hsort).1 x hx
    have hsort' : List.Sorted (· < ·) rest := (List.sorted_cons.mp hsort).2
    by_cases hpe : p = e + 1
    · have hsp : s ≤ p := by omega
      have := ih s p hsp (by simpa [hpe] using hrest) hsort'
      rw [portRangePairs, if_pos hpe]
      exact this
    · have := ih p p (le_refl p) hrest hsort'
      obtain ⟨h1, h2, h3⟩ := this
      rw [portRangePairs, if_neg hpe]
      refine ⟨?_, ?_, ?_⟩
      · intro r hr
        rcases List.mem_cons.mp hr with h | h
        · simp [h, hse]
        · exact h1 r h
      · rw [List.chain'_cons']
        refine ⟨?_, h2⟩
        intro y hy
        have hyp : y.1 = p := by
          cases hhead : (portRangePairs rest (some (p, p))).head? with
          | none => simp [hhead] at hy
          | some z =>
            rw [hhead] at hy h3
            simp at hy h3
            subst hy
            exact h3
        omega
      · simp

/-- C1: for a sorted list of distinct port numbers with one slot prefix, the
ranges produced by `_create_port_ranges` (a) expand back to exactly the
input list — covering the input set with no gaps or duplicates, (b) each
have start ≤ end, (c) are maximal: consecutive ranges are separated by a
gap (end + 1 < next start), (d) a single isolated port becomes a
start = end range, and the rendered commands are exactly the rendering of
these pairs. -/
theorem createPortRanges_correct (slotPref : String) (l : List Int)
    (hsort : List.Sorted (· < ·) l) :
    ((portRangePairs l none).flatMap expandPair = l) ∧
    (∀ r ∈ portRangePairs l none, r.1 ≤ r.2) ∧
    List.Chain' (fun a b : Int × Int => a.2 + 1 < b.1) (portRangePairs l none) ∧
    (∀ p : Int, portRangePairs [p] none = [(p, p)]) ∧
    createPortRanges slotPref l =
      (portRangePairs l none).map (fun r => renderRange slotPref r.1 r.2) := by
  have hmain : ((portRangePairs l none).flatMap expandPair = l) ∧
      (∀ r ∈ portRangePairs l none, r.1 ≤ r.2) ∧
      List.Chain' (fun a b : Int × Int => a.2 + 1 < b.1) (portRangePairs l none) := by
    cases l with
    | nil => refine ⟨rfl, ?_, ?_⟩ <;> simp [portRangePairs]
    | cons p rest =>
      have hrest : ∀ x ∈ rest, p < x := by
        intro x hx
        exact (List.sorted_cons.mp hsort).1 x hx
      have hsort' : List.Sorted (· < ·) rest := (List.sorted_cons.mp hsort).2
      have hexp := portRangePairs_expand rest p p (le_refl p) hrest hsort'
      have hmax := portRangePairs_maximal rest p p (le_refl p) hrest hsort'
      refine ⟨?_, ?_, ?_⟩
      · rw [show portRangePairs (p :: rest) none = portRangePairs rest (some (p, p)) from rfl,
          hexp, expandRange_self]
        rfl
      · intro r hr
        exact hmax.1 r hr
      · exact hmax.2.1
  refine ⟨hmain.1, hmain.2.1, hmain.2.2, ?_, createPortRangesGo_eq_map slotPref l none⟩
  intro p
  rfl

/-- Witness for C1 at the spec's own example: ports [1,2,3,5,6,8] with slot
prefix 1/0 compress to 1-3, 5-6 and the isolated 8. -/
theorem createPortRanges_correct_witness :
    List.Sorted (· < ·) [(1 : Int), 2, 3, 5, 6, 8] ∧
    ((portRangePairs [(1 : Int), 2, 3, 5, 6, 8] none).flatMap expandPair =
      [(1 : Int), 2, 3, 5, 6, 8]) ∧
    createPortRanges "1/0" [1, 2, 3, 5, 6, 8] = ["gi1/0/1-3", "gi1/0/5-6", "gi1/0/8"] :=
  ⟨by decide, (createPortRanges_correct "1/0" [1, 2, 3, 5, 6, 8] (by decide)).1, by decide⟩

/-! ## Association-list helpers for Python dicts (insertion ordered) -/

/-- Lookup in an insertion-ordered dict modeled as an association list. -/
def lookupKey {β : Type} (k : String) : List (String × β) → Option β
  | [] => none
  | (k1, v) :: rest => if k1 = k then some v else lookupKey k rest

/-- Deletion of a key from a dict.  A Python dict holds a key at most once,
so removing the first occurrence models `del d[k]`. -/
def removeKey {β : Type} (k : String) : List (String × β) → List (String × β)
  | [] => []
  | (k1, v) :: rest => if k1 = k then rest else (k1, v) :: removeKey k rest

/-- `d[k] = v` on a Python dict: an existing key keeps its position and gets
the new value, a fresh key is appended at the end. -/
def dictSet {β : Type} (m : List (String × β)) (k : String) (v : β) : List (String × β) :=
  if m.any (fun p => p.1 = k) then m.map (fun p => if p.1 = k then (k, v) else p)
  else m ++ [(k, v)]

/-! ## Python string primitives

The Python string methods used by the source (`startswith`, `endswith`,
`replace`, `split`, `strip`, `lower`, `in`, `int(...)`) are modeled
character-wise on `List Char` so that all definitions evaluate inside the
kernel.  Divergences from Python are noted on each definition. -/

/-- The default whitespace set of Python `str.strip` / `str.split()`. -/
def pyIsSpace (c : Char) : Bool :=
  c = ' ' || c = '\t' || c = '\n' || c = '\r' || c = '\x0b' || c = '\x0c'

/-- `str.strip()` on the character list. -/
def pyStripChars (s : List Char) : List Char :=
  ((s.dropWhile pyIsSpace).reverse.dropWhile pyIsSpace).reverse

/-- Python `s.strip()`. -/
def pyStrip (s : String) : String := String.mk (pyStripChars s.data)

/-- Python `s.startswith(pre)`. -/
def pyStartsWith (s pre : String) : Bool := pre.data.isPrefixOf s.data

/-- Python `s.endswith(suf)`. -/
def pyEndsWith (s suf : String) : Bool := suf.data.isSuffixOf s.data

/-- Left-to-right non-overlapping replacement, one fuel unit per consumed
character (the callers pass the string length, which always suffices). -/
def replaceGo (old new : List Char) : Nat → List Char → List Char
  | _, [] => []
  | 0, s => s
  | fuel + 1, x :: xs =>
    if old.isPrefixOf (x :: xs) && !old.isEmpty then
      new ++ replaceGo old new fuel (xs.drop (old.length - 1))
    else x :: replaceGo old new fuel xs

/-- Python `s.replace(old, new)` (for nonempty `old`, the only use here). -/
def pyReplace (s old new : String) : String :=
  String.mk (replaceGo old.data new.data s.data.length s.data)

/-- Splitting at every occurrence of one character, keeping empty pieces,
as Python `s.split(sep)` with a one-character separator does. -/
def splitOnCharGo (c : Char) : List Char → List (List Char)
  | [] => [[]]
  | x :: xs =>
    if x = c then [] :: splitOnCharGo c xs
    else
      match splitOnCharGo c xs with
      | h :: t => (x :: h) :: t
      | [] => [[x]]

/-- Python `s.split(c)` for a one-character separator. -/
def pySplitChar (s : String) (c : Char) : List String :=
  (splitOnCharGo c s.data).map String.mk

/-- Python `s.split()` (no argument): split on whitespace runs, dropping
empty pieces; the second argument accumulates the current word reversed. -/
def splitWsGo : List Char → List Char → List (List Char)
  | [], cur => if cur.isEmpty then [] else [cur.reverse]
  | x :: xs, cur =>
    if pyIsSpace x then
      if cur.isEmpty then splitWsGo xs [] else cur.reverse :: splitWsGo xs []
    else splitWsGo xs (x :: cur)

/-- Python `s.split()` with no arguments. -/
def pyWhitespaceSplit (s : String) : List String :=
  (splitWsGo s.data []).map String.mk

/-- Decimal value of a digit list. -/
def digitsVal : List Char → Nat → Nat
  | [], acc => acc
  | c :: cs, acc => digitsVal cs (acc * 10 + (c.toNat - '0'.toNat))

/-- Python `int(s)`: surrounding whitespace, an optional sign and at least
one decimal digit (Python additionally allows underscores between digits
and non-ASCII digits; those inputs are modeled as failing). `none` models
the raised ValueError. -/
def pyInt? (s : String) : Option Int :=
  let core := pyStripChars s.data
  let signAndDigits :=
    match core with
    | '-' :: rest => (true, rest)
    | '+' :: rest => (false, rest)
    | rest => (false, rest)
  if signAndDigits.2 ≠ [] ∧ signAndDigits.2.all Char.isDigit then
    let v : Int := Int.ofNat (digitsVal signAndDigits.2 0)
    some (if signAndDigits.1 then -v else v)
  else none

/-- Python `c in s` for a single character. -/
def pyContainsChar (s : String) (c : Char) : Bool := s.data.contains c

/-- Contiguous-substring test on character lists. -/
def isSubChars (needle : List Char) : List Char → Bool
  | [] => needle.isEmpty
  | x :: t => needle.isPrefixOf (x :: t) || isSubChars needle t

/-- Python `needle in hay` for strings: contiguous substring. -/
def pyContains (hay needle : String) : Bool := isSubChars needle.data hay.data

/-- Everything after the first occurrence of `c`, i.e. Python
`s.split(c, 1)[1]` when `c` occurs in `s`. -/
def afterChar (c : Char) : List Char → List Char
  | [] => []
  | x :: xs => if x = c then xs else afterChar c xs

/-- Python `s.split(c, 1)[1]` (callers guard on `c in s`). -/
def pyAfterFirst (s : String) (c : Char) : String := String.mk (afterChar c s.data)

/-- Python `s.lower()` (ASCII; the source only feeds it ASCII device
output). -/
def pyLower (s : String) : String := String.mk (s.data.map Char.toLower)

/-! ## CiscoManager._create_interface_ranges (cisco_manager.py 497-526) -/

/-- Outcome of the per-identifier parse at the top of the loop of
`_create_interface_ranges`:
  - identifiers not starting with `Gi`, or not splitting into exactly three
    `/`-separated fields after `replace("Gi", "")`, fail the guards and are
    passed over silently (`skip`);
  - identifiers passing both guards yield `(slot_prefix, port_num)` (`ok`);
  - identifiers passing both guards whose third field is not an integer make
    `int(parts[2])` raise ValueError (`err`), which the surrounding
    try/except turns into the whole-list fallback. -/
inductive GiParse where
  | skip : GiParse
  | ok (slot : String) (port : Int) : GiParse
  | err : GiParse
deriving DecidableEq

/-- The identifier classification of `_create_interface_ranges`
(`interface.startswith('Gi')`, `interface.replace('Gi', '').split('/')`,
`int(parts[2])`). -/
def classifyInterface (interface : String) : GiParse :=
  if pyStartsWith interface "Gi" then
    match pySplitChar (pyReplace interface "Gi" "") '/' with
    | [a, b, c] =>
      match pyInt? c with
      | some n => .ok (a ++ "/" ++ b) n
      | none => .err
    | _ => .skip
  else .skip

/-- `interface_groups[slot_prefix].append(port_num)` with dict insertion
order: a new slot prefix opens a new group at the end, an existing one has
the port appended to its list. -/
def addToGroups (groups : List (String × List Int)) (slot : String) (port : Int) :
    List (String × List Int) :=
  if groups.any (fun g => g.1 = slot) then
    groups.map (fun g => if g.1 = slot then (g.1, g.2 ++ [port]) else g)
  else groups ++ [(slot, [port])]

/-- The grouping loop of `_create_interface_ranges`; `none` models the
ValueError raised by `int(parts[2])` escaping the loop. -/
def buildGroups : List String → List (String × List Int) → Option (List (String × List Int))
  | [], acc => some acc
  | i :: rest, acc =>
    match classifyInterface i with
    | .skip => buildGroups rest acc
    | .ok slot port => buildGroups rest (addToGroups acc slot port)
    | .err => none

/-- Ascending insertion of one integer, used to model `ports.sort()`. -/
def insertAsc (x : Int) : List Int → List Int
  | [] => [x]
  | y :: ys => if x ≤ y then x :: y :: ys else y :: insertAsc x ys

/-- `ports.sort()`: ascending sort of the port list. -/
def sortAsc (l : List Int) : List Int := l.foldr insertAsc []

/-- `CiscoManager._create_interface_ranges(interfaces)`: group the parsed
identifiers by slot prefix, sort each group ascending and compress it with
`_create_port_ranges`; if `int(parts[2])` raised anywhere, fall back to one
`gi...` singleton command per input identifier. -/
def createInterfaceRanges (interfaces : List String) : List String :=
  match buildGroups interfaces [] with
  | some groups => groups.flatMap (fun g => createPortRanges g.1 (sortAsc g.2))
  | none => interfaces.map (fun i => "gi" ++ pyReplace i "Gi" "")

/-! ## Bulk enable/disable (cisco_manager.py 561-638 and 640-717) -/

/-- Slicing of the input into batches of at most `n` interfaces
(`interfaces[i:i+max_batch_size]` for `i in range(0, len, max_batch_size)`),
modeled for a positive batch size. -/
def chunkGo {α : Type} (n : Nat) : List α → Nat → List α → List (List α)
  | [], _, cur => [cur.reverse]
  | x :: xs, k + 1, cur => chunkGo n xs k (x :: cur)
  | x :: xs, 0, cur => cur.reverse :: chunkGo n xs (n - 1) [x]

/-- All batches of the bulk operation, in order. -/
def chunkList {α : Type} (n : Nat) (l : List α) : List (List α) :=
  match l with
  | [] => []
  | x :: xs => chunkGo n xs (n - 1) [x]

/-- Core of `bulk_disable_interfaces_optimized` / `bulk_enable_interfaces_optimized`
(the two differ only in the configuration command sent, `shutdown` versus
`no shutdown`).  `exec` models `_send_config_command_safe`: its Bool is the
returned success flag, and a raised exception is also modeled as `false`
because the `except` arm marks every interface of the batch `False`.  Per
batch: compress to ranges; if the range list is empty the batch body is
skipped entirely; otherwise one range command is issued and every interface
of the batch receives the shared batch outcome. -/
def bulkApplyOptimized (exec : List String → Bool) (configCmd : String)
    (interfaces : List String) (maxBatchSize : Nat) : List (String × Bool) :=
  if interfaces = [] then []
  else
    (chunkList maxBatchSize interfaces).foldl
      (fun results batch =>
        let ranges := createInterfaceRanges batch
        if ranges = [] then results
        else
          let success := exec ["interface range " ++ String.intercalate "," ranges, configCmd]
          batch.foldl (fun m i => dictSet m i success) results)
      []

/-- `CiscoManager.bulk_disable_interfaces_optimized`. -/
def bulkDisableInterfacesOptimized (exec : List String → Bool)
    (interfaces : List String) (maxBatchSize : Nat) : List (String × Bool) :=
  bulkApplyOptimized exec "shutdown" interfaces maxBatchSize

/-- `CiscoManager.bulk_enable_interfaces_optimized`. -/
def bulkEnableInterfacesOptimized (exec : List String → Bool)
    (interfaces : List String) (maxBatchSize : Nat) : List (String × Bool) :=
  bulkApplyOptimized exec "no shutdown" interfaces maxBatchSize

/-! ## Theorems about _create_interface_ranges and the bulk operations -/

theorem buildGroups_err :
    ∀ (l : List String) (acc : List (String × List Int)),
      (∃ i ∈ l, classifyInterface i = .err) → buildGroups l acc = none := by
  intro l
  induction l with
  | nil => intro acc h; simp at h
  | cons a rest ih =>
    intro acc h
    obtain ⟨i, hi, he⟩ := h
    rw [buildGroups]
    cases hc : classifyInterface a with
    | skip =>
      apply ih
      rcases List.mem_cons.mp hi with h | h
      · rw [h] at he; rw [hc] at he; simp at he
      · exact ⟨i, h, he⟩
    | ok slot port =>
      apply ih
      rcases List.mem_cons.mp hi with h | h
      · rw [h] at he; rw [hc] at he; simp at he
      · exact ⟨i, h, he⟩
    | err => rfl

/-- C6 (amended): an identifier whose `Gi`-shaped port field is not an
integer makes `int(parts[2])` raise, and the whole batch falls back to one
singleton `gi...` command per input identifier, so every identifier of the
batch (the undecomposable one included) appears in the issued commands. -/
theorem createInterfaceRanges_fallback (l : List String) (i : String)
    (hi : i ∈ l) (he : classifyInterface i = .err) :
    createInterfaceRanges l = l.map (fun j => "gi" ++ pyReplace j "Gi" "") := by
  rw [createInterfaceRanges, buildGroups_err l [] ⟨i, hi, he⟩]

/-- Witness for the amended C6 at the concrete batch ["Gi1/0/x"]. -/
theorem createInterfaceRanges_fallback_witness :
    ("Gi1/0/x" ∈ ["Gi1/0/x"] ∧ classifyInterface "Gi1/0/x" = .err) ∧
    createInterfaceRanges ["Gi1/0/x"] =
      ["Gi1/0/x"].map (fun j => "gi" ++ pyReplace j "Gi" "") :=
  ⟨⟨by decide, by decide⟩,
    createInterfaceRanges_fallback ["Gi1/0/x"] "Gi1/0/x" (by decide) (by decide)⟩

/-- Counterexample to C6 as stated: the identifier "Fa0/1" does not start
with "Gi", raises nothing, and is silently passed over by the grouping
loop, so the range compressor emits no command at all for it instead of a
singleton command. -/
theorem createInterfaceRanges_drops_non_gi : createInterfaceRanges ["Fa0/1"] = [] := by
  decide

theorem mem_dictSet_self {β : Type} (m : List (String × β)) (k : String) (v : β) :
    ∃ p ∈ dictSet m k v, p.1 = k := by
  rw [dictSet]
  by_cases h : m.any (fun p => p.1 = k)
  · rw [if_pos h]
    obtain ⟨p, hp, hpk⟩ := List.any_eq_true.mp h
    refine ⟨(k, v), ?_, rfl⟩
    refine List.mem_map.mpr ⟨p, hp, ?_⟩
    simp at hpk
    simp [hpk]
  · rw [if_neg h]
    exact ⟨(k, v), by simp, rfl⟩

theorem mem_dictSet_of_mem {β : Type} (m : List (String × β)) (k j : String) (v : β)
    (h : ∃ p ∈ m, p.1 = j) : ∃ p ∈ dictSet m k v, p.1 = j := by
  obtain ⟨p, hp, hpj⟩ := h
  rw [dictSet]
  by_cases hany : m.any (fun p => p.1 = k)
  · rw [if_pos hany]
    by_cases hpk : p.1 = k
    · refine ⟨(k, v), List.mem_map.mpr ⟨p, hp, by simp [hpk]⟩, ?_⟩
      rw [← hpj, hpk]
    · exact ⟨p, List.mem_map.mpr ⟨p, hp, by simp [hpk]⟩, hpj⟩
  · rw [if_neg hany]
    exact ⟨p, List.mem_append_left _ hp, hpj⟩

theorem batchFold_keys (s : Bool) :
    ∀ (batch : List String) (acc : List (String × Bool)) (j : String),
      ((∃ p ∈ acc, p.1 = j) ∨ j ∈ batch) →
      ∃ p ∈ batch.foldl (fun m i => dictSet m i s) acc, p.1 = j := by
  intro batch
  induction batch with
  | nil =>
    intro acc j h
    rcases h with h | h
    · simpa using h
    · simp at h
  | cons i rest ih =>
    intro acc j h
    rw [List.foldl_cons]
    apply ih
    rcases h with h | h
    · exact Or.inl (mem_dictSet_of_mem acc i j s h)
    · rcases List.mem_cons.mp h with h | h
      · exact Or.inl (h ▸ mem_dictSet_self acc i s)
      · exact Or.inr h

theorem bulkFold_keys (exec : List String → Bool) (cmd : String) :
    ∀ (batches : List (List String)) (acc : List (String × Bool)) (j : String),
      ((∃ p ∈ acc, p.1 = j) ∨
        ∃ b ∈ batches, j ∈ b ∧ createInterfaceRanges b ≠ []) →
      ∃ p ∈ batches.foldl
          (fun results batch =>
            let ranges := createInterfaceRanges batch
            if ranges = [] then results
            else
              let success := exec ["interface range " ++ String.intercalate "," ranges, cmd]
              batch.foldl (fun m i => dictSet m i success) results)
          acc, p.1 = j := by
  intro batches
  induction batches with
  | nil =>
    intro acc j h
    rcases h with h | h
    · simpa using h
    · simp at h
  | cons b rest ih =>
    intro acc j h
    rw [List.foldl_cons]
    simp only
    by_cases hr : createInterfaceRanges b = []
    · rw [if_pos hr]
      apply ih
      rcases h with h | h
      · exact Or.inl h
      · obtain ⟨b1, hb1, hj, hr1⟩ := h
        rcases List.mem_cons.mp hb1 with hb2 | hb2
        · rw [hb2] at hr1
          exact absurd hr hr1
        · exact Or.inr ⟨b1, hb2, hj, hr1⟩
    · rw [if_neg hr]
      apply ih
      rcases h with h | h
      · exact Or.inl (batchFold_keys _ b acc j (Or.inl h))
      · obtain ⟨b1, hb1, hj, hr1⟩ := h
        rcases List.mem_cons.mp hb1 with hb2 | hb2
        · exact Or.inl (batchFold_keys _ b acc j (Or.inr (hb2 ▸ hj)))
        · exact Or.inr ⟨b1, hb2, hj, hr1⟩

theorem chunkGo_flatten {α : Type} (n : Nat) :
    ∀ (xs : List α) (k : Nat) (cur : List α),
      (chunkGo n xs k cur).flatten = cur.reverse ++ xs := by
  intro xs
  induction xs with
  | nil => intro k cur; simp [chunkGo]
  | cons x xs ih =>
    intro k cur
    cases k with
    | zero => simp [chunkGo, ih]
    | succ k => simp [chunkGo, ih]

theorem chunkList_flatten {α : Type} (n : Nat) (l : List α) :
    (chunkList n l).flatten = l := by
  cases l with
  | nil => rfl
  | cons x xs => simp [chunkList, chunkGo_flatten]

/-- C2 (amended): the result map of a bulk enable/disable contains an entry
for every input interface belonging to a batch whose computed range list is
non-empty — whatever the outcome of each batch command, a failing one
included, and regardless of other batches being skipped; interfaces of a
batch whose range list is empty (every identifier undecomposable) are
skipped and get no entry. -/
theorem bulkApply_entry_of_batch_ranges_nonempty (exec : List String → Bool)
    (cmd : String) (l : List String) (n : Nat) (i : String) (b : List String)
    (hb : b ∈ chunkList n l) (hib : i ∈ b)
    (hr : createInterfaceRanges b ≠ []) :
    ∃ p ∈ bulkApplyOptimized exec cmd l n, p.1 = i := by
  have hne : ¬(l = []) := by
    intro h
    rw [h] at hb
    simp [chunkList] at hb
  rw [bulkApplyOptimized, if_neg hne]
  exact bulkFold_keys exec cmd (chunkList n l) [] i (Or.inr ⟨b, hb, hib, hr⟩)

/-- Witness for the amended C2 on a mixed input at batch size 2: the first
batch ["Fa0/1", "Fa0/2"] compresses to no ranges and is skipped, the
second batch ["Gi1/0/1"] fails its command — "Gi1/0/1" still receives an
entry. -/
theorem bulkApply_entry_witness :
    (["Gi1/0/1"] ∈ chunkList 2 ["Fa0/1", "Fa0/2", "Gi1/0/1"] ∧
      createInterfaceRanges ["Gi1/0/1"] ≠ []) ∧
    ∃ p ∈ bulkApplyOptimized (fun _ => false) "shutdown"
        ["Fa0/1", "Fa0/2", "Gi1/0/1"] 2, p.1 = "Gi1/0/1" :=
  ⟨⟨by decide, by decide⟩,
    bulkApply_entry_of_batch_ranges_nonempty (fun _ => false) "shutdown"
      ["Fa0/1", "Fa0/2", "Gi1/0/1"] 2 "Gi1/0/1" ["Gi1/0/1"] (by decide) (by decide)
      (by decide)⟩

/-- Counterexample to C2 as stated: for the non-empty input ["Fa0/1"] the
only batch compresses to an empty range list, the batch body is skipped,
and the returned map is empty — it has no entry for "Fa0/1". -/
theorem bulkDisable_incomplete_map :
    bulkDisableInterfacesOptimized (fun _ => true) ["Fa0/1"] 12 = [] := by
  decide

/-! ## ThreadSafeCache (cache_manager.py)

Wall-clock time (`time.time()`) is passed in explicitly as an integer.
`pickle.dumps` / `zlib.compress` / `pickle.loads`+`zlib.decompress` are
external and passed in as function arguments returning `Option`, where
`none` models a raised exception; serialized payloads are byte lists
(`List Nat`).  The cache dict is an `OrderedDict`: an association list in
LRU order, front = oldest, back = newest.  Keys reach the cache through
`_generate_key` (parts joined with a separator, then hashed); the md5
digest is external and injective on the inputs of interest, so the key is
modeled as the already-generated key string.  The lock serializes the
mutations and plays no role in the sequential model. -/

/-- `CacheEntry` (cache_manager.py 24-41): serialized payload, creation
timestamp, ttl, access count, compressed flag. -/
structure CacheEntry where
  data : List Nat
  timestamp : Int
  ttl : Int
  accessCount : Nat
  compressed : Bool
deriving DecidableEq

/-- `CacheEntry.is_expired`: `time.time() - self.timestamp > self.ttl`. -/
def CacheEntry.isExpired (e : CacheEntry) (now : Int) : Bool :=
  decide (now - e.timestamp > e.ttl)

/-- `ThreadSafeCache` state: configuration, the ordered dict and the stats
counters. -/
structure ThreadSafeCache where
  maxSize : Nat
  defaultTtl : Int
  compressThreshold : Nat
  cache : List (String × CacheEntry)
  hits : Nat
  misses : Nat
  evictions : Nat
  compressions : Nat
  totalRequests : Nat
deriving DecidableEq

/-- `ThreadSafeCache._compress_data` (lines 67-78): serialize; if the
serialized size exceeds the threshold, compress and keep the compressed
form only when it saves at least 10% (`len(compressed) < len(serialized) *
0.9`, i.e. `10 * len(compressed) < 9 * len(serialized)`).  A serialization
failure re-raises out of the except arm (the handler itself calls
`pickle.dumps` again), modeled as `none`; a compression failure falls back
to the uncompressed serialization the handler recomputes. -/
def compressData {α : Type} (serialize : α → Option (List Nat))
    (compress : List Nat → Option (List Nat)) (threshold : Nat) (value : α) :
    Option (List Nat × Bool) :=
  match serialize value with
  | none => none
  | some s =>
    if s.length > threshold then
      match compress s with
      | some comp => if 10 * comp.length < 9 * s.length then some (comp, true) else some (s, false)
      | none => some (s, false)
    else some (s, false)

/-- `ThreadSafeCache.get` (lines 92-120).  Returns the Python return value
(`none` models the `default=None` result) together with the updated state.
On a live hit the entry moves to the most-recently-used end and its access
count increments; an expired or undecodable entry is deleted and counted
as a miss. -/
def ThreadSafeCache.get {α : Type} (c : ThreadSafeCache)
    (decompress : List Nat → Bool → Option α) (now : Int) (key : String) :
    Option α × ThreadSafeCache :=
  let c1 := { c with totalRequests := c.totalRequests + 1 }
  match lookupKey key c1.cache with
  | some entry =>
    if entry.isExpired now then
      (none, { c1 with cache := removeKey key c1.cache, misses := c1.misses + 1 })
    else
      let moved := removeKey key c1.cache ++
        [(key, { entry with accessCount := entry.accessCount + 1 })]
      let c2 := { c1 with cache := moved, hits := c1.hits + 1 }
      match decompress entry.data entry.compressed with
      | some v => (some v, c2)
      | none => (none, { c2 with cache := removeKey key c2.cache, misses := c2.misses + 1 })
  | none => (none, { c1 with misses := c1.misses + 1 })

/-- The `while len(self.cache) > self.max_size` eviction loop of `set`:
delete the first (least recently used) entry and count one eviction.  Each
iteration removes one entry, so `cache.length` fuel always suffices. -/
def evictSteps : Nat → ThreadSafeCache → ThreadSafeCache
  | 0, c => c
  | fuel + 1, c =>
    if c.maxSize < c.cache.length then
      evictSteps fuel { c with cache := c.cache.tail, evictions := c.evictions + 1 }
    else c

/-- `ttl = ttl or self.default_ttl` in `set`: Python truthiness, so both
`None` and `0` select the default ttl. -/
def resolveTtl (ttlArg : Option Int) (defaultTtl : Int) : Int :=
  match ttlArg with
  | some t => if t = 0 then defaultTtl else t
  | none => defaultTtl

/-- The `if compressed: self.stats['compressions'] += 1` step of `set`. -/
def bumpCompressions (c : ThreadSafeCache) (compressed : Bool) : ThreadSafeCache :=
  if compressed then { c with compressions := c.compressions + 1 } else c

/-- The locked body of `set`: delete any previous entry for the key,
append the new entry as newest, then run the LRU eviction loop. -/
def setStore (c1 : ThreadSafeCache) (key : String) (entry : CacheEntry) : ThreadSafeCache :=
  let newCache := removeKey key c1.cache ++ [(key, entry)]
  evictSteps newCache.length { c1 with cache := newCache }

/-- `ThreadSafeCache.set` (lines 122-154).  A serialization failure is
caught, logged and the method returns with the cache untouched.  Otherwise
any previous entry for the key is removed, the new entry is appended as
newest with a fresh timestamp, and the LRU loop evicts from the front
while the cache is over capacity. -/
def ThreadSafeCache.set {α : Type} (c : ThreadSafeCache)
    (serialize : α → Option (List Nat)) (compress : List Nat → Option (List Nat))
    (now : Int) (key : String) (value : α) (ttl : Option Int) : ThreadSafeCache :=
  let ttlVal : Int := resolveTtl ttl c.defaultTtl
  match compressData serialize compress c.compressThreshold value with
  | none => c
  | some (data, compressed) =>
    setStore (bumpCompressions c compressed) key ⟨data, now, ttlVal, 0, compressed⟩

/-- `ThreadSafeCache.clear` (lines 166-176): drop every entry and reset
every stats counter. -/
def ThreadSafeCache.clear (c : ThreadSafeCache) : ThreadSafeCache :=
  { c with cache := [], hits := 0, misses := 0, evictions := 0,
           compressions := 0, totalRequests := 0 }

/-- Python `round(x, 2)` on an exact rational: banker's rounding to two
decimal places (`round` on floats can additionally see representation
error; the model rounds the exact value). -/
def pyRound2 (q : ℚ) : ℚ :=
  let y := q * 100
  let n : Int :=
    if y - ⌊y⌋ < 1 / 2 then ⌊y⌋
    else if y - ⌊y⌋ > 1 / 2 then ⌊y⌋ + 1
    else if 2 ∣ ⌊y⌋ then ⌊y⌋ else ⌊y⌋ + 1
  (n : ℚ) / 100

/-- The dictionary returned by `ThreadSafeCache.get_stats` (lines 195-206). -/
structure CacheStats where
  hits : Nat
  misses : Nat
  evictions : Nat
  compressions : Nat
  totalRequests : Nat
  hitRate : ℚ
  size : Nat
  maxSize : Nat
  memoryUsage : Nat
deriving DecidableEq

/-- `ThreadSafeCache.get_stats`: the counters, the hit rate
`hits / max(1, total_requests) * 100` rounded to two decimals, the current
size and the total stored payload bytes. -/
def ThreadSafeCache.getStats (c : ThreadSafeCache) : CacheStats :=
  { hits := c.hits
    misses := c.misses
    evictions := c.evictions
    compressions := c.compressions
    totalRequests := c.totalRequests
    hitRate := pyRound2 ((c.hits : ℚ) / (max 1 c.totalRequests : ℚ) * 100)
    size := c.cache.length
    maxSize := c.maxSize
    memoryUsage := (c.cache.map (fun p => p.2.data.length)).sum }

/-! ## Association-list and eviction-loop lemmas -/

theorem lookupKey_eq_none_iff {β : Type} (k : String) :
    ∀ m : List (String × β), lookupKey k m = none ↔ k ∉ m.map Prod.fst := by
  intro m
  induction m with
  | nil => simp [lookupKey]
  | cons p rest ih =>
    cases p with
    | mk k1 v =>
      by_cases h : k1 = k
      · simp [lookupKey, h]
      · simp [lookupKey, h, ih, Ne.symm h]

theorem lookupKey_append_right {β : Type} (k : String) (m m2 : List (String × β))
    (h : k ∉ m.map Prod.fst) : lookupKey k (m ++ m2) = lookupKey k m2 := by
  induction m with
  | nil => rfl
  | cons p rest ih =>
    cases p with
    | mk k1 v =>
      have h1 : ¬(k1 = k) := by
        intro hh
        exact h (by simp [hh])
      have h2 : k ∉ rest.map Prod.fst := by
        intro hh
        exact h (by simp [hh])
      rw [List.cons_append, lookupKey, if_neg h1]
      exact ih h2

theorem removeKey_of_not_mem {β : Type} (k : String) :
    ∀ m : List (String × β), k ∉ m.map Prod.fst → removeKey k m = m := by
  intro m
  induction m with
  | nil => intro; rfl
  | cons p rest ih =>
    cases p with
    | mk k1 v =>
      intro h
      have h1 : ¬(k1 = k) := by
        intro hh
        exact h (by simp [hh])
      have h2 : k ∉ rest.map Prod.fst := by
        intro hh
        exact h (by simp [hh])
      rw [removeKey, if_neg h1, ih h2]

theorem removeKey_sublist {β : Type} (k : String) :
    ∀ m : List (String × β), (removeKey k m).Sublist m := by
  intro m
  induction m with
  | nil => exact List.Sublist.refl []
  | cons p rest ih =>
    cases p with
    | mk k1 v =>
      rw [removeKey]
      by_cases h : k1 = k
      · rw [if_pos h]
        exact List.sublist_cons_self (k1, v) rest
      · rw [if_neg h]
        exact List.Sublist.cons₂ (k1, v) ih

theorem nodup_keys_removeKey {β : Type} (k : String) (m : List (String × β))
    (h : (m.map Prod.fst).Nodup) : ((removeKey k m).map Prod.fst).Nodup :=
  h.sublist ((removeKey_sublist k m).map Prod.fst)

theorem not_mem_keys_removeKey {β : Type} (k : String) :
    ∀ m : List (String × β), (m.map Prod.fst).Nodup →
      k ∉ (removeKey k m).map Prod.fst := by
  intro m
  induction m with
  | nil => intro _ h; simp [removeKey] at h
  | cons p rest ih =>
    cases p with
    | mk k1 v =>
      intro hnd
      rw [List.map_cons] at hnd
      have hnd1 : k1 ∉ rest.map Prod.fst := (List.nodup_cons.mp hnd).1
      have hnd2 : (rest.map Prod.fst).Nodup := (List.nodup_cons.mp hnd).2
      by_cases h : k1 = k
      · rw [removeKey, if_pos h, ← h]
        exact hnd1
      · rw [removeKey, if_neg h, List.map_cons]
        intro hk
        rcases List.mem_cons.mp hk with hk | hk
        · exact h hk.symm
        · exact ih hnd2 hk

theorem length_removeKey {β : Type} (k : String) :
    ∀ (m : List (String × β)) (e : β), lookupKey k m = some e →
      (removeKey k m).length + 1 = m.length := by
  intro m
  induction m with
  | nil => intro e h; simp [lookupKey] at h
  | cons p rest ih =>
    cases p with
    | mk k1 v =>
      intro e h
      by_cases hk : k1 = k
      · rw [removeKey, if_pos hk]
        simp
      · rw [lookupKey, if_neg hk] at h
        rw [removeKey, if_neg hk]
        simp [ih e h]

theorem bumpCompressions_cache (c : ThreadSafeCache) (b : Bool) :
    (bumpCompressions c b).cache = c.cache := by
  cases b <;> rfl

theorem bumpCompressions_maxSize (c : ThreadSafeCache) (b : Bool) :
    (bumpCompressions c b).maxSize = c.maxSize := by
  cases b <;> rfl

theorem bumpCompressions_evictions (c : ThreadSafeCache) (b : Bool) :
    (bumpCompressions c b).evictions = c.evictions := by
  cases b <;> rfl

theorem bumpCompressions_defaultTtl (c : ThreadSafeCache) (b : Bool) :
    (bumpCompressions c b).defaultTtl = c.defaultTtl := by
  cases b <;> rfl

theorem evictSteps_eq :
    ∀ (fuel : Nat) (c : ThreadSafeCache), c.cache.length - c.maxSize ≤ fuel →
      evictSteps fuel c =
        { c with cache := c.cache.drop (c.cache.length - c.maxSize),
                 evictions := c.evictions + (c.cache.length - c.maxSize) } := by
  intro fuel
  induction fuel with
  | zero =>
    intro c h
    have h0 : c.cache.length - c.maxSize = 0 := Nat.le_zero.mp h
    simp [evictSteps, h0]
  | succ fuel ih =>
    intro c h
    rw [evictSteps]
    by_cases hlt : c.maxSize < c.cache.length
    · rw [if_pos hlt]
      cases hc : c.cache with
      | nil => rw [hc] at hlt; simp at hlt
      | cons x xs =>
        rw [hc] at hlt h
        simp only [List.length_cons] at hlt h
        have hfuel :
            ({ c with cache := (x :: xs).tail, evictions := c.evictions + 1 } :
              ThreadSafeCache).cache.length - c.maxSize ≤ fuel := by
          simp only [List.tail_cons]
          omega
        rw [ih _ hfuel]
        simp only [List.tail_cons, List.length_cons]
        have e1 : xs.length + 1 - c.maxSize = (xs.length - c.maxSize) + 1 := by omega
        rw [e1, List.drop_succ_cons]
        simp only [ThreadSafeCache.mk.injEq, true_and, and_true]
        omega
    · rw [if_neg hlt]
      have h0 : c.cache.length - c.maxSize = 0 := by omega
      simp [h0]

theorem setStore_cache (c1 : ThreadSafeCache) (key : String) (entry : CacheEntry) :
    (setStore c1 key entry).cache =
      (removeKey key c1.cache ++ [(key, entry)]).drop
        ((removeKey key c1.cache).length + 1 - c1.maxSize) ∧
    (setStore c1 key entry).evictions =
      c1.evictions + ((removeKey key c1.cache).length + 1 - c1.maxSize) := by
  show (evictSteps (removeKey key c1.cache ++ [(key, entry)]).length
      { c1 with cache := removeKey key c1.cache ++ [(key, entry)] }).cache = _ ∧
    (evictSteps (removeKey key c1.cache ++ [(key, entry)]).length
      { c1 with cache := removeKey key c1.cache ++ [(key, entry)] }).evictions = _
  rw [evictSteps_eq (removeKey key c1.cache ++ [(key, entry)]).length
    { c1 with cache := removeKey key c1.cache ++ [(key, entry)] } (Nat.sub_le _ _)]
  constructor
  · simp
  · simp

theorem set_cache_eq {α : Type} (c : ThreadSafeCache) (ser : α → Option (List Nat))
    (comp : List Nat → Option (List Nat)) (now : Int) (k : String) (v : α)
    (ttlArg : Option Int) (tt : Int) (d : List Nat) (b : Bool)
    (hcd : compressData ser comp c.compressThreshold v = some (d, b))
    (htt : resolveTtl ttlArg c.defaultTtl = tt) :
    (c.set ser comp now k v ttlArg).cache =
      (removeKey k c.cache ++ [(k, (⟨d, now, tt, 0, b⟩ : CacheEntry))]).drop
        ((removeKey k c.cache).length + 1 - c.maxSize) ∧
    (c.set ser comp now k v ttlArg).evictions =
      c.evictions + ((removeKey k c.cache).length + 1 - c.maxSize) := by
  have h1 : c.set ser comp now k v ttlArg =
      setStore (bumpCompressions c b) k ⟨d, now, tt, 0, b⟩ := by
    rw [ThreadSafeCache.set.eq_def, hcd, htt]
  rw [h1]
  have h2 := setStore_cache (bumpCompressions c b) k ⟨d, now, tt, 0, b⟩
  rw [bumpCompressions_cache, bumpCompressions_maxSize, bumpCompressions_evictions] at h2
  exact h2

theorem get_hit_some {α : Type} (c : ThreadSafeCache)
    (dec : List Nat → Bool → Option α) (now : Int) (k : String) (e : CacheEntry) (v : α)
    (hlk : lookupKey k c.cache = some e) (hexp : e.isExpired now = false)
    (hdec : dec e.data e.compressed = some v) :
    c.get dec now k =
      (some v,
        { c with cache := removeKey k c.cache ++
                   [(k, { e with accessCount := e.accessCount + 1 })],
                 hits := c.hits + 1,
                 totalRequests := c.totalRequests + 1 }) := by
  rw [ThreadSafeCache.get.eq_def]
  simp [hlk, hexp, hdec]

theorem get_hit_none {α : Type} (c : ThreadSafeCache)
    (dec : List Nat → Bool → Option α) (now : Int) (k : String) (e : CacheEntry)
    (hlk : lookupKey k c.cache = some e) (hexp : e.isExpired now = false)
    (hdec : dec e.data e.compressed = none) :
    c.get dec now k =
      ((none : Option α),
        { c with cache := removeKey k (removeKey k c.cache ++
                   [(k, { e with accessCount := e.accessCount + 1 })]),
                 hits := c.hits + 1,
                 misses := c.misses + 1,
                 totalRequests := c.totalRequests + 1 }) := by
  rw [ThreadSafeCache.get.eq_def]
  simp [hlk, hexp, hdec]

theorem get_expired {α : Type} (c : ThreadSafeCache)
    (dec : List Nat → Bool → Option α) (now : Int) (k : String) (e : CacheEntry)
    (hlk : lookupKey k c.cache = some e) (hexp : e.isExpired now = true) :
    c.get dec now k =
      ((none : Option α),
        { c with cache := removeKey k c.cache,
                 misses := c.misses + 1,
                 totalRequests := c.totalRequests + 1 }) := by
  rw [ThreadSafeCache.get.eq_def]
  simp [hlk, hexp]

theorem lookupKey_mem_of_some {β : Type} (k : String) :
    ∀ (m : List (String × β)) (e : β), lookupKey k m = some e → k ∈ m.map Prod.fst := by
  intro m
  induction m with
  | nil => intro e h; simp [lookupKey] at h
  | cons p rest ih =>
    cases p with
    | mk k1 v =>
      intro e h
      by_cases hk : k1 = k
      · simp [hk]
      · rw [lookupKey, if_neg hk] at h
        simp [ih e h]

/-- The entry a `set` leaves behind is found by a lookup, provided the
cache keys were distinct and capacity is at least one. -/
theorem lookupKey_after_set {α : Type} (c : ThreadSafeCache)
    (ser : α → Option (List Nat)) (comp : List Nat → Option (List Nat))
    (now : Int) (k : String) (v : α) (ttlArg : Option Int) (tt : Int)
    (d : List Nat) (b : Bool)
    (hnodup : (c.cache.map Prod.fst).Nodup)
    (hmax : 1 ≤ c.maxSize)
    (hcd : compressData ser comp c.compressThreshold v = some (d, b))
    (htt : resolveTtl ttlArg c.defaultTtl = tt) :
    (c.set ser comp now k v ttlArg).cache =
      (removeKey k c.cache).drop ((removeKey k c.cache).length + 1 - c.maxSize) ++
        [(k, (⟨d, now, tt, 0, b⟩ : CacheEntry))] ∧
    lookupKey k (c.set ser comp now k v ttlArg).cache =
      some (⟨d, now, tt, 0, b⟩ : CacheEntry) ∧
    ((c.set ser comp now k v ttlArg).cache.map Prod.fst).Nodup := by
  obtain ⟨hcache, hevict⟩ := set_cache_eq c ser comp now k v ttlArg tt d b hcd htt
  have hkL : k ∉ (removeKey k c.cache).map Prod.fst :=
    not_mem_keys_removeKey k c.cache hnodup
  have hnle : (removeKey k c.cache).length + 1 - c.maxSize ≤
      (removeKey k c.cache).length := by omega
  have hdropped : (c.set ser comp now k v ttlArg).cache =
      (removeKey k c.cache).drop ((removeKey k c.cache).length + 1 - c.maxSize) ++
        [(k, (⟨d, now, tt, 0, b⟩ : CacheEntry))] := by
    rw [hcache, List.drop_append_of_le_length hnle]
  have hkdrop : k ∉
      ((removeKey k c.cache).drop
        ((removeKey k c.cache).length + 1 - c.maxSize)).map Prod.fst := by
    intro hmem
    exact hkL (((List.drop_sublist _ _).map Prod.fst).subset hmem)
  refine ⟨hdropped, ?_, ?_⟩
  · rw [hdropped, lookupKey_append_right k _ _ hkdrop]
    simp [lookupKey]
  · rw [hdropped, List.map_append]
    apply List.nodup_append.mpr
    refine ⟨?_, by simp, ?_⟩
    · exact (nodup_keys_removeKey k c.cache hnodup).sublist
        ((List.drop_sublist _ _).map Prod.fst)
    · intro a ha hb
      simp at hb
      subst hb
      exact hkdrop ha

/-- C3 (amended): for a key stored with nonzero ttl t, a get returns the
stored value while the entry's age is less than or equal to t, and returns
absent (removing the entry) once the age is strictly greater than t —
matching the source invariant `is_expired = now - timestamp > ttl`, whose
boundary is strict. -/
theorem cache_ttl_expiry {α : Type} (ser : α → Option (List Nat))
    (comp : List Nat → Option (List Nat)) (dec : List Nat → Bool → Option α)
    (c : ThreadSafeCache) (ts now : Int) (k : String) (v : α) (t : Int)
    (d : List Nat) (b : Bool)
    (hnodup : (c.cache.map Prod.fst).Nodup)
    (hmax : 1 ≤ c.maxSize)
    (ht : t ≠ 0)
    (hcd : compressData ser comp c.compressThreshold v = some (d, b))
    (hdec : dec d b = some v) :
    ((now - ts ≤ t) →
      ((c.set ser comp ts k v (some t)).get dec now k).1 = some v) ∧
    ((now - ts > t) →
      ((c.set ser comp ts k v (some t)).get dec now k).1 = none ∧
      lookupKey k (((c.set ser comp ts k v (some t)).get dec now k).2).cache = none) := by
  have htt : resolveTtl (some t) c.defaultTtl = t := by simp [resolveTtl, ht]
  obtain ⟨hdropped, hlk, hnd⟩ :=
    lookupKey_after_set c ser comp ts k v (some t) t d b hnodup hmax hcd htt
  constructor
  · intro hle
    have hexp : (⟨d, ts, t, 0, b⟩ : CacheEntry).isExpired now = false := by
      simp [CacheEntry.isExpired]
      omega
    rw [get_hit_some _ dec now k _ v hlk hexp hdec]
  · intro hgt
    have hexp : (⟨d, ts, t, 0, b⟩ : CacheEntry).isExpired now = true := by
      simp [CacheEntry.isExpired]
      omega
    rw [get_expired _ dec now k _ hlk hexp]
    refine ⟨rfl, ?_⟩
    exact (lookupKey_eq_none_iff k _).mpr (not_mem_keys_removeKey k _ hnd)

/-- Witness for the amended C3: value 7 stored at time 0 with ttl 5 is
still served at time 3. -/
theorem cache_ttl_expiry_witness :
    (compressData (fun n : Nat => some [n]) (fun _ => none) 1024 7 = some ([7], false)) ∧
    ((3 : Int) - 0 ≤ 5) ∧
    (((⟨10, 300, 1024, [], 0, 0, 0, 0, 0⟩ : ThreadSafeCache).set
        (fun n : Nat => some [n]) (fun _ => none) 0 "k" 7 (some 5)).get
      (fun d _ => d.head?) 3 "k").1 = some 7 :=
  ⟨by decide, by decide,
    (cache_ttl_expiry (fun n : Nat => some [n]) (fun _ => none) (fun d _ => d.head?)
      ⟨10, 300, 1024, [], 0, 0, 0, 0, 0⟩ 0 3 "k" 7 5 [7] false (by decide) (by decide)
      (by decide) (by decide) (by decide)).1 (by decide)⟩

/-- Counterexample to C3 as stated: at age exactly equal to the ttl
(now = 5, stored at 0 with ttl 5) the claim demands absence, but
`is_expired` is `age > ttl`, so the entry is not expired and the stored
value is still returned. -/
theorem get_at_age_eq_ttl_returns_value :
    ¬((5 : Int) - 0 < 5) ∧
    (((⟨10, 300, 1024, [], 0, 0, 0, 0, 0⟩ : ThreadSafeCache).set
        (fun n : Nat => some [n]) (fun _ => none) 0 "k" 7 (some 5)).get
      (fun d _ => d.head?) 5 "k").1 = some 7 := by
  constructor
  · decide
  · decide

/-- C4: with distinct keys, the cache exactly at capacity and a fresh key
being inserted: (i) `set` appends the new entry as newest and evicts
exactly the least-recently-used (front) entry, the size stays at capacity
and the eviction counter increments by one; (ii) a live `get` hit moves
its entry to the most-recently-used end (access count bumped); (iii) with
capacity at least two, a key accessed just before the insertion survives
it. -/
theorem lru_eviction {α : Type} (ser : α → Option (List Nat))
    (comp : List Nat → Option (List Nat)) (dec : List Nat → Bool → Option α)
    (c : ThreadSafeCache) (now ts : Int) (kNew : String) (v : α)
    (d : List Nat) (b : Bool)
    (hfull : c.cache.length = c.maxSize)
    (hmax : 1 ≤ c.maxSize)
    (hnew : kNew ∉ c.cache.map Prod.fst)
    (hcd : compressData ser comp c.compressThreshold v = some (d, b)) :
    ((c.set ser comp ts kNew v none).cache =
      c.cache.tail ++ [(kNew, (⟨d, ts, c.defaultTtl, 0, b⟩ : CacheEntry))]) ∧
    ((c.set ser comp ts kNew v none).cache.length = c.maxSize) ∧
    ((c.set ser comp ts kNew v none).evictions = c.evictions + 1) ∧
    (∀ (k : String) (e : CacheEntry) (w : α), lookupKey k c.cache = some e →
      e.isExpired now = false → dec e.data e.compressed = some w →
      ((c.get dec now k).2).cache =
        removeKey k c.cache ++ [(k, { e with accessCount := e.accessCount + 1 })]) ∧
    (∀ (kA : String) (eA : CacheEntry) (w : α), 2 ≤ c.maxSize →
      lookupKey kA c.cache = some eA → eA.isExpired now = false →
      dec eA.data eA.compressed = some w →
      lookupKey kA ((((c.get dec now kA).2).set ser comp ts kNew v none)).cache ≠ none) := by
  have hrm : removeKey kNew c.cache = c.cache := removeKey_of_not_mem kNew c.cache hnew
  obtain ⟨hcache, hevict⟩ :=
    set_cache_eq c ser comp ts kNew v none c.defaultTtl d b hcd rfl
  rw [hrm] at hcache hevict
  have hone : c.cache.length + 1 - c.maxSize = 1 := by omega
  rw [hone] at hcache hevict
  have hc1 : (c.set ser comp ts kNew v none).cache =
      c.cache.tail ++ [(kNew, (⟨d, ts, c.defaultTtl, 0, b⟩ : CacheEntry))] := by
    rw [hcache, List.drop_append_of_le_length (by omega), List.drop_one]
  refine ⟨hc1, ?_, hevict, ?_, ?_⟩
  · rw [hc1]
    simp only [List.length_append, List.length_tail, List.length_cons, List.length_nil]
    omega
  · intro k e w hlk hexp hdec
    rw [get_hit_some _ dec now k e w hlk hexp hdec]
  · intro kA eA w hmax2 hlk hexp hdec
    rw [get_hit_some _ dec now kA eA w hlk hexp hdec]
    have hkA : kA ∈ c.cache.map Prod.fst := lookupKey_mem_of_some kA c.cache eA hlk
    have hne : kNew ≠ kA := by
      intro h
      exact hnew (h ▸ hkA)
    have hlen : (removeKey kA c.cache).length + 1 = c.cache.length :=
      length_removeKey kA c.cache eA hlk
    have hnew2 : kNew ∉ (removeKey kA c.cache ++
        [(kA, { eA with accessCount := eA.accessCount + 1 })]).map Prod.fst := by
      rw [List.map_append]
      intro hmem
      rcases List.mem_append.mp hmem with h | h
      · exact hnew (((removeKey_sublist kA c.cache).map Prod.fst).subset h)
      · simp at h
        exact hne h
    have hrm2 : removeKey kNew (removeKey kA c.cache ++
        [(kA, { eA with accessCount := eA.accessCount + 1 })]) =
        removeKey kA c.cache ++ [(kA, { eA with accessCount := eA.accessCount + 1 })] :=
      removeKey_of_not_mem kNew _ hnew2
    obtain ⟨hcache2, _⟩ :=
      set_cache_eq
        { c with
          cache := removeKey kA c.cache ++
            [(kA, { eA with accessCount := eA.accessCount + 1 })],
          hits := c.hits + 1,
          totalRequests := c.totalRequests + 1 }
        ser comp ts kNew v none c.defaultTtl d b hcd rfl
    rw [hrm2] at hcache2
    have hamount : (removeKey kA c.cache ++
        [(kA, { eA with accessCount := eA.accessCount + 1 })]).length + 1 - c.maxSize = 1 := by
      simp only [List.length_append, List.length_cons, List.length_nil]
      omega
    rw [hamount] at hcache2
    have hge1 : 1 ≤ (removeKey kA c.cache).length := by omega
    rw [List.append_assoc, List.drop_append_of_le_length hge1] at hcache2
    intro hnone
    have hout : kA ∉ ((({ c with
        cache := removeKey kA c.cache ++
          [(kA, { eA with accessCount := eA.accessCount + 1 })],
        hits := c.hits + 1,
        totalRequests := c.totalRequests + 1 } :
          ThreadSafeCache).set ser comp ts kNew v none).cache.map Prod.fst) :=
      (lookupKey_eq_none_iff kA _).mp hnone
    apply hout
    rw [hcache2, List.map_append]
    apply List.mem_append_right
    simp

/-- Witness for C4: a two-slot cache holding keys "a" (oldest) and "b";
inserting fresh key "c" evicts exactly "a", keeps the size at 2 and counts
one eviction, while accessing "a" first makes it survive the same
insertion. -/
theorem lru_eviction_witness :
    (((⟨2, 300, 1024, [("a", ⟨[1], 0, 5, 0, false⟩), ("b", ⟨[2], 0, 5, 0, false⟩)],
        0, 0, 0, 0, 0⟩ : ThreadSafeCache).cache.length = 2) ∧
      compressData (fun n : Nat => some [n]) (fun _ => none) 1024 3 = some ([3], false)) ∧
    ((⟨2, 300, 1024, [("a", ⟨[1], 0, 5, 0, false⟩), ("b", ⟨[2], 0, 5, 0, false⟩)],
        0, 0, 0, 0, 0⟩ : ThreadSafeCache).set (fun n : Nat => some [n]) (fun _ => none)
        1 "c" 3 none).cache =
      [("a", ⟨[1], 0, 5, 0, false⟩), ("b", ⟨[2], 0, 5, 0, false⟩)].tail ++
        [("c", (⟨[3], 1, 300, 0, false⟩ : CacheEntry))] ∧
    lookupKey "a"
      ((((⟨2, 300, 1024, [("a", ⟨[1], 0, 5, 0, false⟩), ("b", ⟨[2], 0, 5, 0, false⟩)],
          0, 0, 0, 0, 0⟩ : ThreadSafeCache).get (fun l _ => l.head?) 1 "a").2.set
        (fun n : Nat => some [n]) (fun _ => none) 1 "c" 3 none).cache) ≠ none :=
  ⟨⟨by decide, by decide⟩,
    (lru_eviction (fun n : Nat => some [n]) (fun _ => none) (fun l _ => l.head?)
        ⟨2, 300, 1024, [("a", ⟨[1], 0, 5, 0, false⟩), ("b", ⟨[2], 0, 5, 0, false⟩)],
          0, 0, 0, 0, 0⟩ 1 1 "c" 3 [3] false (by decide) (by decide) (by decide)
        (by decide)).1,
    (lru_eviction (fun n : Nat => some [n]) (fun _ => none) (fun l _ => l.head?)
        ⟨2, 300, 1024, [("a", ⟨[1], 0, 5, 0, false⟩), ("b", ⟨[2], 0, 5, 0, false⟩)],
          0, 0, 0, 0, 0⟩ 1 1 "c" 3 [3] false (by decide) (by decide) (by decide)
        (by decide)).2.2.2.2 "a" ⟨[1], 0, 5, 0, false⟩ 1 (by decide) (by decide)
        (by decide) (by decide)⟩

/-- C5: on a hit whose stored bytes fail to deserialize, `get` has already
incremented the hit counter before the decode attempt, then the except arm
deletes the entry and increments the miss counter too — so a call that
returns absent still incremented hits (the stats slip behind the
self-healing purge). -/
theorem get_decode_failure_counts_hit_and_miss :
    ((⟨10, 300, 1024, [("k", ⟨[7], 0, 5, 0, false⟩)], 0, 0, 0, 0, 0⟩ :
        ThreadSafeCache).get (fun _ _ => (none : Option Nat)) 1 "k").1 = none ∧
    ((⟨10, 300, 1024, [("k", ⟨[7], 0, 5, 0, false⟩)], 0, 0, 0, 0, 0⟩ :
        ThreadSafeCache).get (fun _ _ => (none : Option Nat)) 1 "k").2.hits = 1 ∧
    ((⟨10, 300, 1024, [("k", ⟨[7], 0, 5, 0, false⟩)], 0, 0, 0, 0, 0⟩ :
        ThreadSafeCache).get (fun _ _ => (none : Option Nat)) 1 "k").2.misses = 1 := by
  decide

/-- C9 (amended): a serialization failure makes `set` return with the
cache object completely unchanged (entries, order and every counter), so
subsequent gets are unaffected; a compression failure, by contrast, is
caught inside `_compress_data` and the value is stored uncompressed. -/
theorem set_serialization_failure_atomic {α : Type} (c : ThreadSafeCache)
    (ser : α → Option (List Nat)) (comp : List Nat → Option (List Nat))
    (now : Int) (k : String) (v : α) (ttlArg : Option Int) (s : List Nat) :
    (ser v = none → c.set ser comp now k v ttlArg = c) ∧
    (ser v = some s → comp s = none →
      compressData ser comp c.compressThreshold v = some (s, false)) := by
  constructor
  · intro h
    rw [ThreadSafeCache.set.eq_def]
    simp [compressData, h]
  · intro h1 h2
    rw [compressData, h1]
    by_cases hl : s.length > c.compressThreshold
    · simp [hl, h2]
    · simp [hl]

/-- Witness for the amended C9: a cache with one entry and live counters
is returned bit-for-bit unchanged when pickling raises, and a value whose
compression raises is kept uncompressed. -/
theorem set_serialization_failure_witness :
    ((⟨10, 300, 0, [("j", ⟨[1], 0, 5, 0, false⟩)], 3, 4, 5, 6, 7⟩ : ThreadSafeCache).set
        (fun _ : Nat => (none : Option (List Nat))) (fun _ => none) 2 "k" 9 (some 5) =
      ⟨10, 300, 0, [("j", ⟨[1], 0, 5, 0, false⟩)], 3, 4, 5, 6, 7⟩) ∧
    compressData (fun n : Nat => some [n]) (fun _ => none) 0 9 = some ([9], false) :=
  ⟨(set_serialization_failure_atomic
      ⟨10, 300, 0, [("j", ⟨[1], 0, 5, 0, false⟩)], 3, 4, 5, 6, 7⟩
      (fun _ : Nat => (none : Option (List Nat))) (fun _ => none) 2 "k" 9 (some 5)
      []).1 rfl,
    (set_serialization_failure_atomic
      (⟨10, 300, 0, [], 0, 0, 0, 0, 0⟩ : ThreadSafeCache)
      (fun n : Nat => some [n]) (fun _ => none) 0 "k" 9 (some 5) [9]).2 rfl rfl⟩

/-- Counterexample to C9 as stated: a compression failure does not leave
the cache unmodified — `_compress_data` catches the zlib error, falls back
to the uncompressed serialization, and `set` stores the entry anyway
(threshold 0 forces the compression attempt; the compressor raises). -/
theorem set_compression_failure_still_stores :
    ((⟨10, 300, 0, [], 0, 0, 0, 0, 0⟩ : ThreadSafeCache).set (fun n : Nat => some [n])
        (fun _ => none) 3 "k" 7 (some 5)).cache =
      [("k", (⟨[7], 3, 5, 0, false⟩ : CacheEntry))] := by
  decide

/-- C10: `clear()` removes every entry and resets all statistics counters,
so `get_stats` immediately after reports size 0, hit rate 0, zero counters
and zero memory regardless of prior traffic; only the configured max size
survives. -/
theorem clear_resets_stats (c : ThreadSafeCache) :
    (c.clear).cache = [] ∧
    (c.clear).getStats =
      { hits := 0, misses := 0, evictions := 0, compressions := 0,
        totalRequests := 0, hitRate := 0, size := 0, maxSize := c.maxSize,
        memoryUsage := 0 } := by
  refine ⟨rfl, ?_⟩
  simp only [ThreadSafeCache.clear, ThreadSafeCache.getStats, CacheStats.mk.injEq]
  norm_num [pyRound2]

/-! ## CiscoManager.send_command (cisco_manager.py 193-260)

The netmiko channel send is passed in as `channel : Option String` — the
raw text the device returns for this command, `none` modeling a raised
exception (wrapped into CiscoCommandError by the source).  The command
cache is `cache_manager.command_cache`, a `ThreadSafeCache` with
max_size 1000 and default ttl 60; its pickle/zlib oracles are passed
through.  `cache_key = (self.connection.host, command)` is joined by
`_generate_key` with a separator and hashed; the md5 digest is modeled as
the joined string itself. -/

/-- The CiscoManager counters touched by `send_command`. -/
structure CiscoStats where
  commandsExecuted : Nat
  cacheHits : Nat
  cacheMisses : Nat
  errors : Nat
deriving DecidableEq

/-- The per-line cleaning step of `send_command` (lines 244-254): strip
the line; drop it when empty or ending in a prompt character; on a line
starting with a hostname marker, cut everything up to and including the
first prompt character (first `#`, then `>` on the result), stripping
again. -/
def cleanLine (rawLine : String) : Option String :=
  let line := pyStrip rawLine
  if !line.isEmpty && !pyEndsWith line "#" && !pyEndsWith line ">" then
    some
      (if pyStartsWith line "Switch" || pyStartsWith line "Router" then
        let l1 := if pyContainsChar line '#' then pyStrip (pyAfterFirst line '#') else line
        let l2 := if pyContainsChar l1 '>' then pyStrip (pyAfterFirst l1 '>') else l1
        l2
      else line)
  else none

/-- The output cleaning of `send_command` (lines 238-256): strip the whole
output, split into lines, clean each line, join the survivors. -/
def cleanOutput (output : String) : String :=
  String.intercalate "\n" ((pySplitChar (pyStrip output) '\n').filterMap cleanLine)

/-- `CiscoManager.send_command(command, delay_factor, use_cache)`.
Returns (returned output or `none` for a raised CiscoCommandError, the
command cache afterwards, the stats afterwards).  With `use_cache`, a
non-empty cached string (Python truthiness) is returned immediately; on a
miss the raw output is sent, the *raw* (pre-cleaning) output is stored
with ttl 60 when non-empty, and the cleaned output is returned. -/
def sendCommand (connected : Bool) (host : String) (channel : Option String)
    (ser : String → Option (List Nat)) (comp : List Nat → Option (List Nat))
    (dec : List Nat → Bool → Option String)
    (cmdCache : ThreadSafeCache) (stats : CiscoStats) (now : Int)
    (command : String) (useCache : Bool) :
    Option String × ThreadSafeCache × CiscoStats :=
  if !connected then (none, cmdCache, stats)
  else
    let key := host ++ "|" ++ command
    let checked :=
      if useCache then
        let r := cmdCache.get dec now key
        match r.1 with
        | some cv =>
          if !cv.isEmpty then
            (some cv, r.2, { stats with cacheHits := stats.cacheHits + 1 })
          else (none, r.2, { stats with cacheMisses := stats.cacheMisses + 1 })
        | none => (none, r.2, { stats with cacheMisses := stats.cacheMisses + 1 })
      else (none, cmdCache, stats)
    match checked with
    | (some cv, cache1, stats1) => (some cv, cache1, stats1)
    | (none, cache1, stats1) =>
      let stats2 := { stats1 with commandsExecuted := stats1.commandsExecuted + 1 }
      match channel with
      | none => (none, cache1, { stats2 with errors := stats2.errors + 1 })
      | some output =>
        let cache2 :=
          if useCache && !output.isEmpty then cache1.set ser comp now key output (some 60)
          else cache1
        (some (cleanOutput output), cache2, stats2)

/-! ## CiscoParser.parse_basic_interfaces (cisco_parsers.py 227-284) -/

/-- One-or-more characters of a class, maximal munch; `none` when the
first character does not match.  The character classes chained below are
pairwise disjoint at every boundary of the pattern, so maximal munch is
exactly the regex behavior. -/
def expectMany1 (p : Char → Bool) : List Char → Option (List Char)
  | [] => none
  | x :: xs => if p x then some (xs.dropWhile p) else none

/-- One expected literal character. -/
def expectChar (c : Char) : List Char → Option (List Char)
  | [] => none
  | x :: xs => if x = c then some xs else none

/-- The generic interface pattern of `parse_basic_interfaces`:
`re.match(r'^[A-Za-z]+\d+/\d+/\d+\s+is\s+', line)`. -/
def matchesGenericIface (s : List Char) : Bool :=
  (((((((((expectMany1 Char.isAlpha s).bind
    (expectMany1 Char.isDigit)).bind
    (expectChar '/')).bind
    (expectMany1 Char.isDigit)).bind
    (expectChar '/')).bind
    (expectMany1 Char.isDigit)).bind
    (expectMany1 pyIsSpace)).bind
    (expectChar 'i')).bind
    (fun t => (expectChar 's' t).bind (expectMany1 pyIsSpace))).isSome

/-- The keyword cascade deriving the status in `parse_basic_interfaces`
(lines 255-267), applied to the lowercased line, in source order:
connected, up, notconnect, down, disabled, unknown. -/
def interfaceStatusOf (lineLower : String) : String :=
  if pyContains lineLower "is up" && pyContains lineLower "line protocol is up" then
    "connected"
  else if pyContains lineLower "is up" then "up"
  else if pyContains lineLower "notconnect" then "notconnect"
  else if pyContains lineLower "is down" then "down"
  else if pyContains lineLower "administratively down" then "disabled"
  else "unknown"

/-- One line of `parse_basic_interfaces`: strip it, require one of the
interface-name prefixes or the generic regex shape, require at least three
whitespace-separated fields, and derive (parts[0], status).  The remaining
record fields of the source are the literal constants
vlan/duplex/speed = unknown, type = Ethernet, empty description. -/
def lineInterfaceRecord (rawLine : String) : Option (String × String) :=
  let line := pyStrip rawLine
  let isIfaceLine :=
    pyStartsWith line "GigabitEthernet" || pyStartsWith line "FastEthernet" ||
    pyStartsWith line "TenGigabitEthernet" || pyStartsWith line "Ethernet" ||
    matchesGenericIface line.data
  if isIfaceLine then
    let parts := pyWhitespaceSplit line
    if parts.length ≥ 3 then some (parts.headD "", interfaceStatusOf (pyLower line))
    else none
  else none

/-- `CiscoParser.parse_basic_interfaces(output)`, restricted to the
name ↦ status part of the records (the other fields are constants). -/
def parseBasicInterfaces (output : String) : List (String × String) :=
  (pySplitChar output '\n').foldl
    (fun m line =>
      match lineInterfaceRecord line with
      | some r => dictSet m r.1 r.2
      | none => m) []

/-! ## Theorems about send_command and the basic parser -/

/-- C7 (amended): a string produced by a fresh channel send is returned
through the cleaning routine (whitespace stripped, prompt-suffixed lines
removed, leading hostname-prompt markers cut), and the *raw* pre-cleaning
output is what gets stored in the command cache; a cache hit returns the
stored string unchanged, with no cleaning at hit time. -/
theorem send_command_cleaning (host command raw : String)
    (ser : String → Option (List Nat)) (comp : List Nat → Option (List Nat))
    (dec : List Nat → Bool → Option String)
    (cmdCache : ThreadSafeCache) (stats : CiscoStats) (now : Int) :
    (∀ cv, (cmdCache.get dec now (host ++ "|" ++ command)).1 = some cv →
      cv.isEmpty = false →
      (sendCommand true host (some raw) ser comp dec cmdCache stats now command true).1 =
        some cv) ∧
    ((cmdCache.get dec now (host ++ "|" ++ command)).1 = none →
      (sendCommand true host (some raw) ser comp dec cmdCache stats now command true).1 =
        some (cleanOutput raw) ∧
      (raw.isEmpty = false →
        (sendCommand true host (some raw) ser comp dec cmdCache stats now
            command true).2.1 =
          ((cmdCache.get dec now (host ++ "|" ++ command)).2).set ser comp now
            (host ++ "|" ++ command) raw (some 60))) ∧
    ((sendCommand true host (some raw) ser comp dec cmdCache stats now command false).1 =
      some (cleanOutput raw)) := by
  refine ⟨?_, ?_, ?_⟩
  · intro cv hget hcv
    simp [sendCommand, hget, hcv]
  · intro hget
    constructor
    · simp [sendCommand, hget]
    · intro hraw
      simp [sendCommand, hget, hraw]
  · simp [sendCommand]

/-- Witness for the amended C7: a command cache holding the raw bytes of
the string with surrounding spaces; the hit returns it with the spaces
still there. -/
theorem send_command_cleaning_witness :
    (((⟨1000, 60, 1024, [("sw1|show v", ⟨[32, 32, 97, 98, 99, 32, 32], 0, 60, 0, false⟩)],
        0, 0, 0, 0, 0⟩ : ThreadSafeCache).get
      (fun l _ => some (String.mk (l.map Char.ofNat))) 1 ("sw1" ++ "|" ++ "show v")).1 =
        some "  abc  ") ∧
    (sendCommand true "sw1" (some "ignored") (fun s => some (s.data.map Char.toNat))
        (fun _ => none) (fun l _ => some (String.mk (l.map Char.ofNat)))
        ⟨1000, 60, 1024, [("sw1|show v", ⟨[32, 32, 97, 98, 99, 32, 32], 0, 60, 0, false⟩)],
          0, 0, 0, 0, 0⟩ ⟨0, 0, 0, 0⟩ 1 "show v" true).1 = some "  abc  " :=
  ⟨by decide,
    (send_command_cleaning "sw1" "show v" "ignored" (fun s => some (s.data.map Char.toNat))
        (fun _ => none) (fun l _ => some (String.mk (l.map Char.ofNat)))
        ⟨1000, 60, 1024, [("sw1|show v", ⟨[32, 32, 97, 98, 99, 32, 32], 0, 60, 0, false⟩)],
          0, 0, 0, 0, 0⟩ ⟨0, 0, 0, 0⟩ 1).1 "  abc  " (by decide) (by decide)⟩

/-- Counterexample to C7 as stated: `send_command` stores the raw
pre-cleaning output on a miss and returns the stored string as-is on a
hit, so the second of two identical cached calls returns a string that
still carries its leading/trailing whitespace. -/
theorem send_command_cache_hit_returns_raw :
    (sendCommand true "sw1" (some "  abc  ") (fun s => some (s.data.map Char.toNat))
        (fun _ => none) (fun l _ => some (String.mk (l.map Char.ofNat)))
        ⟨1000, 60, 1024, [], 0, 0, 0, 0, 0⟩ ⟨0, 0, 0, 0⟩ 0 "show v" true).1 =
      some "abc" ∧
    (sendCommand true "sw1" (some "ignored") (fun s => some (s.data.map Char.toNat))
        (fun _ => none) (fun l _ => some (String.mk (l.map Char.ofNat)))
        (sendCommand true "sw1" (some "  abc  ") (fun s => some (s.data.map Char.toNat))
          (fun _ => none) (fun l _ => some (String.mk (l.map Char.ofNat)))
          ⟨1000, 60, 1024, [], 0, 0, 0, 0, 0⟩ ⟨0, 0, 0, 0⟩ 0 "show v" true).2.1
        (sendCommand true "sw1" (some "  abc  ") (fun s => some (s.data.map Char.toNat))
          (fun _ => none) (fun l _ => some (String.mk (l.map Char.ofNat)))
          ⟨1000, 60, 1024, [], 0, 0, 0, 0, 0⟩ ⟨0, 0, 0, 0⟩ 0 "show v" true).2.2
        1 "show v" true).1 = some "  abc  " ∧
    pyStrip "  abc  " ≠ "  abc  " := by
  refine ⟨by decide, by decide, by decide⟩

/-- C8 (amended): the basic parser's status derives from the keyword
cascade evaluated in source order — "is up" with "line protocol is up"
gives connected; "is up" alone gives up; otherwise "notconnect" gives
notconnect; otherwise "is down" gives down; "administratively down" gives
disabled only when none of the earlier keywords occur (a canonical
"is administratively down, line protocol is down" line therefore maps to
down). -/
theorem interface_status_keyword_rules (l : String) :
    (pyContains l "is up" = true → pyContains l "line protocol is up" = true →
      interfaceStatusOf l = "connected") ∧
    (pyContains l "is up" = true → pyContains l "line protocol is up" = false →
      interfaceStatusOf l = "up") ∧
    (pyContains l "is up" = false → pyContains l "notconnect" = true →
      interfaceStatusOf l = "notconnect") ∧
    (pyContains l "is up" = false → pyContains l "notconnect" = false →
      pyContains l "is down" = true → interfaceStatusOf l = "down") ∧
    (pyContains l "is up" = false → pyContains l "notconnect" = false →
      pyContains l "is down" = false → pyContains l "administratively down" = true →
      interfaceStatusOf l = "disabled") := by
  refine ⟨?_, ?_, ?_, ?_, ?_⟩
  · intro h1 h2
    simp [interfaceStatusOf, h1, h2]
  · intro h1 h2
    simp [interfaceStatusOf, h1, h2]
  · intro h1 h2
    simp [interfaceStatusOf, h1, h2]
  · intro h1 h2 h3
    simp [interfaceStatusOf, h1, h2, h3]
  · intro h1 h2 h3 h4
    simp [interfaceStatusOf, h1, h2, h3, h4]

/-- Witness for the amended C8 on a canonical pair of lines, through the
full parser: an up/up line parses to connected and the canonical
administratively-down line parses to down. -/
theorem interface_status_keyword_rules_witness :
    (pyContains "gigabitethernet1/0/1 is up, line protocol is up" "is up" = true ∧
      interfaceStatusOf "gigabitethernet1/0/1 is up, line protocol is up" = "connected") ∧
    parseBasicInterfaces "GigabitEthernet1/0/1 is up, line protocol is up" =
      [("GigabitEthernet1/0/1", "connected")] :=
  ⟨⟨by decide,
    (interface_status_keyword_rules "gigabitethernet1/0/1 is up, line protocol is up").1
      (by decide) (by decide)⟩,
    by decide⟩

/-- Counterexample to C8 as stated: the canonical operator-disabled line
also contains "line protocol is down", the `is down` branch fires first,
and the parser reports down instead of disabled. -/
theorem admin_down_line_parses_as_down :
    parseBasicInterfaces
      "GigabitEthernet1/0/1 is administratively down, line protocol is down" =
      [("GigabitEthernet1/0/1", "down")] ∧ "down" ≠ "disabled" := by
  refine ⟨by decide, by decide⟩

end Swapp
